import Mathlib

/-!
Verification of the simple-redis core: the backend store
(`src/backend/mod.rs`) and the hash/set command family
(`src/cmd/hmap.rs`).

The embedding is shallow: `DashMap` tables become association lists with
insert-or-replace update, RESP frames become an inductive type whose
`BulkString` payload is the already-decoded text, and each Rust method
becomes a Lean function of the same name.  Helpers that live in files of
the repository not available here (`validate_command`, `extract_args`,
`Backend::sismember`, the GET/SET executors) are modelled from the
specification and marked as such in their doc comments.
-/

/-- RESP wire frame, mirroring the repository frame model: Null, Integer,
BulkString, simple-string status, Error and Array.  BulkString payloads are
modelled as already-decoded text. -/
inductive RespFrame where
  | Null : RespFrame
  | Integer (i : Int) : RespFrame
  | BulkString (s : String) : RespFrame
  | SimpleString (s : String) : RespFrame
  | ErrorFrame (s : String) : RespFrame
  | Array (elems : List RespFrame) : RespFrame

/-- Command-layer error taxonomy: `InvalidArgument` for name, arity and
frame-type violations, `Utf8Error` for the decoding failure path. -/
inductive CommandError where
  | InvalidArgument (msg : String) : CommandError
  | Utf8Error (msg : String) : CommandError
deriving DecidableEq

/-- The canonical "OK" status frame (`RESP_OK` in the source). -/
def RESP_OK : RespFrame := RespFrame.SimpleString "OK"

/-- The Null sentinel used by `sadd` to mark set membership
(`RESP_NIL` in the source). -/
def RESP_NIL : RespFrame := RespFrame.Null

/-- First-match lookup in an association list; the embedding of
`DashMap::get`. -/
def lookupEntry {α : Type} : List (String × α) → String → Option α
  | [], _ => none
  | (k, v) :: rest, key => if k = key then some v else lookupEntry rest key

/-- Insert-or-replace in an association list; the embedding of
`DashMap::insert`.  Replaces the first binding of the key in place, or
appends a fresh binding at the end. -/
def setEntry {α : Type} : List (String × α) → String → α → List (String × α)
  | [], key, v => [(key, v)]
  | (k, w) :: rest, key, v =>
    if k = key then (key, v) :: rest else (k, w) :: setEntry rest key v

/-- The backend store (`Backend` in `src/backend/mod.rs`): a string table
`map` and a composite table `hmap` of outer key to inner field map. -/
structure Backend where
  map : List (String × RespFrame)
  hmap : List (String × List (String × RespFrame))

/-- `Backend::new`: both tables empty. -/
def Backend.new : Backend := ⟨[], []⟩

/-- `Backend::get`: snapshot read from the string table. -/
def Backend.get (b : Backend) (key : String) : Option RespFrame :=
  lookupEntry b.map key

/-- `Backend::set`: unconditional insert into the string table. -/
def Backend.set (b : Backend) (key : String) (value : RespFrame) : Backend :=
  { b with map := setEntry b.map key value }

/-- `Backend::hget`: read a field of the composite entry for `key`;
`none` when either the outer key or the field is absent. -/
def Backend.hget (b : Backend) (key field : String) : Option RespFrame :=
  (lookupEntry b.hmap key).bind fun m => lookupEntry m field

/-- `Backend::hset`: create the inner map on first use
(`entry(key).or_default()`), then insert the field. -/
def Backend.hset (b : Backend) (key field : String) (value : RespFrame) :
    Backend :=
  let m := (lookupEntry b.hmap key).getD []
  { b with hmap := setEntry b.hmap key (setEntry m field value) }

/-- `Backend::hgetall`: snapshot of the inner map for `key`, if any. -/
def Backend.hgetall (b : Backend) (key : String) :
    Option (List (String × RespFrame)) :=
  lookupEntry b.hmap key

/-- The member loop of `Backend::sadd`: for each member, record whether it
was present, insert it with the Null sentinel, and count the members whose
insert found no previous binding. -/
def saddLoop (m : List (String × RespFrame)) :
    List String → Int → List (String × RespFrame) × Int
  | [], added => (m, added)
  | member :: rest, added =>
    saddLoop (setEntry m member RESP_NIL) rest
      (if (lookupEntry m member).isSome then added else added + 1)

/-- `Backend::sadd`: fetch-or-create the composite entry for `key`
(`entry(key).or_default()`), run the member loop, return the count of
newly inserted members. -/
def Backend.sadd (b : Backend) (key : String) (members : List String) :
    Backend × Int :=
  let m := (lookupEntry b.hmap key).getD []
  let r := saddLoop m members 0
  ({ b with hmap := setEntry b.hmap key r.1 }, r.2)

/-- Modelled from the spec: `Backend::sismember` is called from
`src/cmd/hmap.rs` but its definition is not among the available sources.
Per the spec it is true iff `member` exists as a field under the composite
entry for `key`. -/
def Backend.sismember (b : Backend) (key member : String) : Bool :=
  match lookupEntry b.hmap key with
  | none => false
  | some m => (lookupEntry m member).isSome

/-- The HGET command: key and field. -/
structure HGet where
  key : String
  field : String

/-- The HGETALL command: key plus the caller-controlled sort flag. -/
structure HGetAll where
  key : String
  sort : Bool

/-- The HMGET command: key and requested field list. -/
structure HMGet where
  key : String
  fields : List String

/-- The HSET command: key, field and an arbitrary frame value. -/
structure HSet where
  key : String
  field : String
  value : RespFrame

/-- The SADD command: key and member list. -/
structure SAdd where
  key : String
  members : List String

/-- The SISMEMBER command: key and member. -/
structure SIsMember where
  key : String
  member : String

/-- Boolean lexicographic comparison of character lists, the embedding of
the byte comparison performed by the Rust `Ord` instance on strings. -/
def charListLe : List Char → List Char → Bool
  | [], _ => true
  | _ :: _, [] => false
  | a :: as, b :: bs =>
    if a < b then true
    else if b < a then false
    else charListLe as bs

/-- Lexicographic order on strings via their character lists. -/
def strLe (a b : String) : Bool := charListLe a.data b.data

/-- Insert an element into a sorted list, keeping it stable. -/
def insertSorted {α : Type} (le : α → α → Bool) (a : α) :
    List α → List α
  | [] => [a]
  | b :: l => if le a b then a :: b :: l else b :: insertSorted le a l

/-- Stable insertion sort, the embedding of the stable `sort_by` call in
`HGetAll::execute`. -/
def sortBy {α : Type} (le : α → α → Bool) : List α → List α
  | [] => []
  | a :: l => insertSorted le a (sortBy le l)

/-- Comparison of (field, value) pairs by field name, the embedding of
`|a, b| a.0.cmp(&b.0)`. -/
def pairLe (p q : String × RespFrame) : Bool := strLe p.1 q.1

/-- `HGet::execute`: reply with the stored field value, or Null. -/
def HGet.execute (c : HGet) (b : Backend) : Backend × RespFrame :=
  match b.hget c.key c.field with
  | some value => (b, value)
  | none => (b, RespFrame.Null)

/-- `HGetAll::execute`: collect all pairs of the entry, sort them by field
name when the sort flag is set, and flatten into alternating
field, value frames; an absent key replies with an empty Array. -/
def HGetAll.execute (c : HGetAll) (b : Backend) : Backend × RespFrame :=
  match lookupEntry b.hmap c.key with
  | some m =>
    let data := if c.sort then sortBy pairLe m else m
    (b, RespFrame.Array
      (data.flatMap fun p => [RespFrame.BulkString p.1, p.2]))
  | none => (b, RespFrame.Array [])

/-- `HMGet::execute`: when the entry exists, reply with one element per
requested field, the stored value or Null; when the key is absent, reply
with an empty Array. -/
def HMGet.execute (c : HMGet) (b : Backend) : Backend × RespFrame :=
  match lookupEntry b.hmap c.key with
  | some m =>
    (b, RespFrame.Array
      (c.fields.map fun f => (lookupEntry m f).getD RespFrame.Null))
  | none => (b, RespFrame.Array [])

/-- `HSet::execute`: store the field and reply "OK". -/
def HSet.execute (c : HSet) (b : Backend) : Backend × RespFrame :=
  (b.hset c.key c.field c.value, RESP_OK)

/-- `SAdd::execute`: run `Backend::sadd` and reply with the count of newly
inserted members as an Integer frame. -/
def SAdd.execute (c : SAdd) (b : Backend) : Backend × RespFrame :=
  let r := b.sadd c.key c.members
  (r.1, RespFrame.Integer r.2)

/-- `SIsMember::execute`: reply with the frame produced by
`Backend::sismember`; per the spec, Integer 1 when the member is present
and Integer 0 otherwise. -/
def SIsMember.execute (c : SIsMember) (b : Backend) : Backend × RespFrame :=
  (b, if b.sismember c.key c.member
      then RespFrame.Integer 1 else RespFrame.Integer 0)

/-- Modelled from the spec: the GET executor lives in a source file not
available here; it replies with the stored value, or Null if absent. -/
def GetCmd.execute (key : String) (b : Backend) : Backend × RespFrame :=
  match b.get key with
  | some v => (b, v)
  | none => (b, RespFrame.Null)

/-- Modelled from the spec: the SET executor lives in a source file not
available here; it stores the value and replies "OK". -/
def SetCmd.execute (key : String) (value : RespFrame) (b : Backend) :
    Backend × RespFrame :=
  (b.set key value, RESP_OK)

/-- The closed command variant type of the command model, one case per
supported operation. -/
inductive Command where
  | get (key : String) : Command
  | set (key : String) (value : RespFrame) : Command
  | hget (c : HGet) : Command
  | hgetall (c : HGetAll) : Command
  | hmget (c : HMGet) : Command
  | hset (c : HSet) : Command
  | sadd (c : SAdd) : Command
  | sismember (c : SIsMember) : Command

/-- Exhaustive dispatch of a command to its executor. -/
def Command.execute : Command → Backend → Backend × RespFrame
  | Command.get key, b => GetCmd.execute key b
  | Command.set key value, b => SetCmd.execute key value b
  | Command.hget c, b => HGet.execute c b
  | Command.hgetall c, b => HGetAll.execute c b
  | Command.hmget c, b => HMGet.execute c b
  | Command.hset c, b => HSet.execute c b
  | Command.sadd c, b => SAdd.execute c b
  | Command.sismember c, b => SIsMember.execute c b

/-- True iff the frame is a BulkString. -/
def RespFrame.isBulkString : RespFrame → Bool
  | RespFrame.BulkString _ => true
  | _ => false

/-- True iff the frame equals `BulkString name`; the embedding of the
frame equality test `args[0] != BulkString::new(name)`. -/
def RespFrame.isBulkOf : RespFrame → String → Bool
  | RespFrame.BulkString s, name => s = name
  | _, _ => false

/-- Modelled from the spec: `validate_command` from the command module,
whose file is not among the available sources.  It checks the exact
trailing-argument count and that the leading token(s) match the command
name, yielding InvalidArgument on violation. -/
def validate_command (value : List RespFrame) (names : List String)
    (nArgs : Nat) : Except CommandError Unit :=
  if value.length ≠ names.length + nArgs then
    Except.error (CommandError.InvalidArgument "wrong number of arguments")
  else if (names.zip value).all fun p => p.2.isBulkOf p.1 then
    Except.ok ()
  else
    Except.error (CommandError.InvalidArgument "invalid command name")

/-- Modelled from the spec: `extract_args` from the command module, whose
file is not among the available sources; it returns the frames of the
request array from position `start` onward. -/
def extract_args (value : List RespFrame) (start : Nat) : List RespFrame :=
  value.drop start

/-- Decode a list of frames expected to be BulkStrings, failing with the
given InvalidArgument message at the first frame of another type; the
embedding of the `map` / `collect::<Result<..>>` pipeline used by the
HMGET and SADD parsers. -/
def decodeBulkList (msg : String) :
    List RespFrame → Except CommandError (List String)
  | [] => Except.ok []
  | RespFrame.BulkString s :: rest =>
    match decodeBulkList msg rest with
    | Except.ok ss => Except.ok (s :: ss)
    | Except.error e => Except.error e
  | _ :: _ => Except.error (CommandError.InvalidArgument msg)

/-- `TryFrom<RespArray> for HGet`: exactly two arguments, key and field,
both BulkStrings. -/
def HGet.tryFrom (value : List RespFrame) : Except CommandError HGet :=
  match validate_command value ["hget"] 2 with
  | Except.error e => Except.error e
  | Except.ok _ =>
    match extract_args value 1 with
    | RespFrame.BulkString key :: RespFrame.BulkString fld :: _ =>
      Except.ok ⟨key, fld⟩
    | _ =>
      Except.error (CommandError.InvalidArgument "Invalid key or field")

/-- `TryFrom<RespArray> for HGetAll`: exactly one argument, a BulkString
key; the sort flag is initialized to false. -/
def HGetAll.tryFrom (value : List RespFrame) : Except CommandError HGetAll :=
  match validate_command value ["hgetall"] 1 with
  | Except.error e => Except.error e
  | Except.ok _ =>
    match extract_args value 1 with
    | RespFrame.BulkString key :: _ => Except.ok ⟨key, false⟩
    | _ => Except.error (CommandError.InvalidArgument "Invalid key")

/-- `TryFrom<RespArray> for HMGet`: at least three tokens in total, the
literal `hmget` name, a BulkString key and BulkString fields. -/
def HMGet.tryFrom (value : List RespFrame) : Except CommandError HMGet :=
  let args := extract_args value 0
  if args.length < 3 then
    Except.error (CommandError.InvalidArgument
      "command hmget must have at least 2 arguments")
  else if !(args.headD RespFrame.Null).isBulkOf "hmget" then
    Except.error (CommandError.InvalidArgument "Invalid command")
  else
    match args.drop 1 with
    | RespFrame.BulkString key :: rest =>
      match decodeBulkList "Invalid field" rest with
      | Except.ok fields => Except.ok ⟨key, fields⟩
      | Except.error e => Except.error e
    | _ => Except.error (CommandError.InvalidArgument "Invalid key")

/-- `TryFrom<RespArray> for SAdd`: at least three tokens in total, the
literal `sadd` name, a BulkString key and BulkString members. -/
def SAdd.tryFrom (value : List RespFrame) : Except CommandError SAdd :=
  let args := extract_args value 0
  if args.length < 3 then
    Except.error (CommandError.InvalidArgument
      "command sadd must have at least 2 arguments")
  else if !(args.headD RespFrame.Null).isBulkOf "sadd" then
    Except.error (CommandError.InvalidArgument "Invalid command")
  else
    match args.drop 1 with
    | RespFrame.BulkString key :: rest =>
      match decodeBulkList "Invalid member" rest with
      | Except.ok members => Except.ok ⟨key, members⟩
      | Except.error e => Except.error e
    | _ => Except.error (CommandError.InvalidArgument "Invalid key")

/-- `TryFrom<RespArray> for HSet`: exactly three arguments; key and field
must be BulkStrings, the value may be any frame. -/
def HSet.tryFrom (value : List RespFrame) : Except CommandError HSet :=
  match validate_command value ["hset"] 3 with
  | Except.error e => Except.error e
  | Except.ok _ =>
    match extract_args value 1 with
    | RespFrame.BulkString key :: RespFrame.BulkString fld :: v :: _ =>
      Except.ok ⟨key, fld, v⟩
    | _ =>
      Except.error (CommandError.InvalidArgument "Invalid key, field or value")

/-- `TryFrom<RespArray> for SIsMember`: exactly two arguments, key and
member, both BulkStrings. -/
def SIsMember.tryFrom (value : List RespFrame) :
    Except CommandError SIsMember :=
  match validate_command value ["sismember"] 2 with
  | Except.error e => Except.error e
  | Except.ok _ =>
    match extract_args value 1 with
    | RespFrame.BulkString key :: RespFrame.BulkString member :: _ =>
      Except.ok ⟨key, member⟩
    | _ =>
      Except.error (CommandError.InvalidArgument "Invalid key or member")

/-- A backend holding one hash entry, used to instantiate theorems with
hypotheses at a concrete state. -/
def demoHash : Backend :=
  (Backend.new.hset "map" "hello" (RespFrame.BulkString "world")).hset
    "map" "alpha" (RespFrame.BulkString "beta")

/-- A backend holding one set member, used to instantiate theorems with
hypotheses at a concrete state. -/
def demoSet : Backend := (Backend.new.sadd "s" ["a"]).1


instance optionEqNoneDecidable {α : Type} (o : Option α) :
    Decidable (o = none) :=
  Option.decidable_eq_none

lemma lookupEntry_setEntry {α : Type} (l : List (String × α)) (k : String)
    (v : α) (x : String) :
    lookupEntry (setEntry l k v) x =
      if k = x then some v else lookupEntry l x := by
  induction l with
  | nil => simp [setEntry, lookupEntry]
  | cons p rest ih =>
    obtain ⟨k1, w⟩ := p
    by_cases h : k1 = k
    · subst h
      by_cases hx : k1 = x <;> simp [setEntry, lookupEntry, hx]
    · have h2 : k ≠ k1 := Ne.symm h
      by_cases hx : k1 = x
      · subst hx
        simp [setEntry, lookupEntry, h, h2]
      · simp [setEntry, lookupEntry, h, hx, ih]

lemma saddLoop_snd (members : List String) :
    ∀ (m : List (String × RespFrame)) (acc : Int),
    (saddLoop m members acc).2 =
      acc + ((members.toFinset.filter
        fun x => lookupEntry m x = none).card : Int) := by
  induction members with
  | nil => intro m acc; simp [saddLoop]
  | cons mem rest ih =>
    intro m acc
    have hfilter : rest.toFinset.filter
          (fun x => lookupEntry (setEntry m mem RESP_NIL) x = none) =
        (rest.toFinset.filter fun x => lookupEntry m x = none).erase mem := by
      ext x
      by_cases hx : mem = x
      · subst hx
        simp [lookupEntry_setEntry]
      · simp [lookupEntry_setEntry, hx, Finset.mem_erase, Ne.symm hx]
    cases h : lookupEntry m mem with
    | some w =>
      have hmemF : mem ∉ rest.toFinset.filter
          fun x => lookupEntry m x = none := by
        simp [Finset.mem_filter, h]
      rw [saddLoop, ih, hfilter, Finset.erase_eq_of_not_mem hmemF]
      simp [h, List.toFinset_cons, Finset.filter_insert]
    | none =>
      have hcard : (insert mem (rest.toFinset.filter
            fun x => lookupEntry m x = none)).card =
          ((rest.toFinset.filter
            fun x => lookupEntry m x = none).erase mem).card + 1 := by
        by_cases hm : mem ∈ rest.toFinset.filter
            fun x => lookupEntry m x = none
        · rw [Finset.insert_eq_self.mpr hm, Finset.card_erase_add_one hm]
        · rw [Finset.card_insert_of_not_mem hm,
            Finset.erase_eq_of_not_mem hm]
      rw [saddLoop, ih, hfilter]
      rw [List.toFinset_cons, Finset.filter_insert, if_pos h, hcard]
      simp only [h, Option.isSome_none, Bool.false_eq_true, if_false]
      push_cast
      ring

lemma saddLoop_fst (members : List String) :
    ∀ (m : List (String × RespFrame)) (acc : Int) (x : String),
    lookupEntry (saddLoop m members acc).1 x =
      if x ∈ members then some RESP_NIL else lookupEntry m x := by
  induction members with
  | nil => intro m acc x; simp [saddLoop]
  | cons mem rest ih =>
    intro m acc x
    rw [saddLoop, ih]
    by_cases hr : x ∈ rest
    · simp [hr]
    · rw [lookupEntry_setEntry]
      by_cases hx : mem = x
      · simp [hx, hr]
      · simp [hx, hr, Ne.symm hx]

lemma hget_eq_lookup_default (b : Backend) (k x : String) :
    b.hget k x = lookupEntry ((lookupEntry b.hmap k).getD []) x := by
  cases h : lookupEntry b.hmap k <;> simp [Backend.hget, h, lookupEntry]

/-- C2: for every composite-table state and non-empty member list, `sadd`
returns the number of (distinct) members not already present as fields
under the key before the call; in particular SADD on a fresh key returns
1, a repeated SADD returns 0, and a subsequent SADD of the old member and
one new member returns 1. -/
theorem sadd_counts_newly_inserted (b b0 : Backend) (k a c : String)
    (members : List String) :
    (members ≠ [] →
      (b.sadd k members).2 =
        ((members.toFinset.filter fun x => b.hget k x = none).card : Int)) ∧
    (lookupEntry b0.hmap k = none → a ≠ c →
      (b0.sadd k [a]).2 = 1 ∧
      (((b0.sadd k [a]).1).sadd k [a]).2 = 0 ∧
      (((b0.sadd k [a]).1).sadd k [a, c]).2 = 1) := by
  constructor
  · intro _
    show (saddLoop ((lookupEntry b.hmap k).getD []) members 0).2 = _
    rw [saddLoop_snd]
    have hc : members.toFinset.filter
        (fun x => lookupEntry ((lookupEntry b.hmap k).getD []) x = none) =
        members.toFinset.filter (fun x => b.hget k x = none) :=
      Finset.filter_congr (by intro x _; rw [hget_eq_lookup_default])
    rw [hc]
    ring
  · intro hk hac
    refine ⟨?_, ?_, ?_⟩
    · simp [Backend.sadd, hk, saddLoop, lookupEntry]
    · simp [Backend.sadd, hk, saddLoop, lookupEntry, setEntry,
        lookupEntry_setEntry]
    · simp [Backend.sadd, hk, saddLoop, lookupEntry, setEntry,
        lookupEntry_setEntry, hac]

theorem sadd_counts_newly_inserted_witness :
    (Backend.new.sadd "s" ["x", "y"]).2 =
      (((["x", "y"] : List String).toFinset.filter
        fun x => Backend.new.hget "s" x = none).card : Int) ∧
    ((Backend.new.sadd "s" ["a"]).2 = 1 ∧
      (((Backend.new.sadd "s" ["a"]).1).sadd "s" ["a"]).2 = 0 ∧
      (((Backend.new.sadd "s" ["a"]).1).sadd "s" ["a", "b"]).2 = 1) :=
  ⟨(sadd_counts_newly_inserted Backend.new Backend.new "s" "a" "b"
      ["x", "y"]).1 (by decide),
   (sadd_counts_newly_inserted Backend.new Backend.new "s" "a" "b"
      ["x", "y"]).2 rfl (by decide)⟩

/-- C3: when the composite entry for a key already maps a field to some
value, `sadd` of that field overwrites the stored value with the Null
sentinel while contributing 0 to the returned count. -/
theorem sadd_overwrites_existing_field (b : Backend) (k m : String)
    (v : RespFrame) (mm : List (String × RespFrame))
    (hk : lookupEntry b.hmap k = some mm)
    (hv : lookupEntry mm m = some v) :
    ((b.sadd k [m]).1).hget k m = some RespFrame.Null ∧
    (b.sadd k [m]).2 = 0 := by
  constructor
  · simp [Backend.sadd, Backend.hget, hk, lookupEntry_setEntry,
      saddLoop_fst, RESP_NIL]
  · simp [Backend.sadd, hk, saddLoop, hv]

theorem sadd_overwrites_existing_field_witness :
    ((demoHash.sadd "map" ["hello"]).1).hget "map" "hello" =
      some RespFrame.Null ∧
    (demoHash.sadd "map" ["hello"]).2 = 0 :=
  sadd_overwrites_existing_field demoHash "map" "hello"
    (RespFrame.BulkString "world")
    [("hello", RespFrame.BulkString "world"),
     ("alpha", RespFrame.BulkString "beta")] rfl rfl

/-- C5: after `hset k f v`, `hget k f` returns v and the HGET executor
replies v; `hget` returns none both when the outer key is absent and when
the key exists but the field is absent, and the executor surfaces both as
Null, indistinguishably. -/
theorem hset_hget_roundtrip (b : Backend) (k f : String) (v : RespFrame) :
    (b.hset k f v).hget k f = some v ∧
    (HGet.execute ⟨k, f⟩ (b.hset k f v)).2 = v ∧
    (lookupEntry b.hmap k = none →
      b.hget k f = none ∧ (HGet.execute ⟨k, f⟩ b).2 = RespFrame.Null) ∧
    (∀ mm, lookupEntry b.hmap k = some mm → lookupEntry mm f = none →
      b.hget k f = none ∧ (HGet.execute ⟨k, f⟩ b).2 = RespFrame.Null) := by
  have h1 : (b.hset k f v).hget k f = some v := by
    simp [Backend.hset, Backend.hget, lookupEntry_setEntry]
  refine ⟨h1, ?_, ?_, ?_⟩
  · simp [HGet.execute, h1]
  · intro h
    simp [Backend.hget, h, HGet.execute]
  · intro mm hk hf
    simp [Backend.hget, hk, hf, HGet.execute]

theorem hset_hget_roundtrip_witness :
    (Backend.new.hset "map" "hello" (RespFrame.BulkString "world")).hget
      "map" "hello" = some (RespFrame.BulkString "world") ∧
    (Backend.new.hget "map" "hello" = none ∧
      (HGet.execute ⟨"map", "hello"⟩ Backend.new).2 = RespFrame.Null) ∧
    (demoHash.hget "map" "zzz" = none ∧
      (HGet.execute ⟨"map", "zzz"⟩ demoHash).2 = RespFrame.Null) :=
  ⟨(hset_hget_roundtrip Backend.new "map" "hello"
      (RespFrame.BulkString "world")).1,
   (hset_hget_roundtrip Backend.new "map" "hello"
      (RespFrame.BulkString "world")).2.2.1 rfl,
   (hset_hget_roundtrip demoHash "map" "zzz"
      (RespFrame.BulkString "world")).2.2.2
     [("hello", RespFrame.BulkString "world"),
      ("alpha", RespFrame.BulkString "beta")] rfl rfl⟩

/-- C6: `set` followed by `get` returns the written value for any prior
state of the string table, and `get` on a never-written key returns none,
surfaced by the GET executor as Null. -/
theorem set_get_roundtrip (b : Backend) (k : String) (v : RespFrame) :
    (b.set k v).get k = some v ∧
    (GetCmd.execute k (b.set k v)).2 = v ∧
    Backend.new.get k = none ∧
    (GetCmd.execute k Backend.new).2 = RespFrame.Null := by
  have h1 : (b.set k v).get k = some v := by
    simp [Backend.set, Backend.get, lookupEntry_setEntry]
  refine ⟨h1, ?_, ?_, ?_⟩
  · simp [GetCmd.execute, h1]
  · simp [Backend.new, Backend.get, lookupEntry]
  · simp [GetCmd.execute, Backend.new, Backend.get, lookupEntry]

/-- C1 counterexample: on a state with no composite entry for the key,
HMGET of one field replies with the empty Array, not with a one-element
Array, refuting the claim that the reply length always equals the number
of requested fields. -/
theorem hmget_missing_key_empty_reply :
    (HMGet.execute ⟨"k", ["f"]⟩ Backend.new).2 = RespFrame.Array [] ∧
    ¬ (∀ elems : List RespFrame,
        (HMGet.execute ⟨"k", ["f"]⟩ Backend.new).2 = RespFrame.Array elems →
        elems.length = 1) := by
  constructor
  · rfl
  · intro hclaim
    have h0 := hclaim [] rfl
    simp at h0

/-- C1 amended: when a composite entry exists for the key, the HMGET reply
is an Array of exactly one element per requested field, in request order
with duplicates preserved, each the stored value or Null; when no entry
exists for the key, the reply is the empty Array. -/
theorem hmget_reply_shape (b : Backend) (k : String)
    (fields : List String) :
    (∀ mm, lookupEntry b.hmap k = some mm →
      ∃ elems : List RespFrame,
        (HMGet.execute ⟨k, fields⟩ b).2 = RespFrame.Array elems ∧
        elems.length = fields.length ∧
        ∀ i : Nat, elems[i]? =
          (fields[i]?).map fun f =>
            (lookupEntry mm f).getD RespFrame.Null) ∧
    (lookupEntry b.hmap k = none →
      (HMGet.execute ⟨k, fields⟩ b).2 = RespFrame.Array []) := by
  constructor
  · intro mm h
    refine ⟨fields.map fun f => (lookupEntry mm f).getD RespFrame.Null,
      ?_, ?_, ?_⟩
    · simp [HMGet.execute, h]
    · simp
    · intro i
      simp [List.getElem?_map]
  · intro h
    simp [HMGet.execute, h]

theorem hmget_reply_shape_witness :
    (∃ elems : List RespFrame,
      (HMGet.execute ⟨"map", ["alpha", "zzz"]⟩ demoHash).2 =
        RespFrame.Array elems ∧
      elems.length = (["alpha", "zzz"] : List String).length ∧
      ∀ i : Nat, elems[i]? =
        ((["alpha", "zzz"] : List String)[i]?).map fun f =>
          (lookupEntry [("hello", RespFrame.BulkString "world"),
            ("alpha", RespFrame.BulkString "beta")] f).getD
            RespFrame.Null) ∧
    (HMGet.execute ⟨"k", ["f"]⟩ Backend.new).2 = RespFrame.Array [] :=
  ⟨(hmget_reply_shape demoHash "map" ["alpha", "zzz"]).1 _ rfl,
   (hmget_reply_shape Backend.new "k" ["f"]).2 rfl⟩

lemma insertSorted_perm {α : Type} (le : α → α → Bool) (a : α)
    (l : List α) : (insertSorted le a l).Perm (a :: l) := by
  induction l with
  | nil => exact List.Perm.refl _
  | cons b l ih =>
    by_cases h : le a b
    · simp [insertSorted, h]
    · simp only [insertSorted, h, if_false, Bool.false_eq_true]
      exact List.Perm.trans (List.Perm.cons b ih) (List.Perm.swap a b l)

lemma sortBy_perm {α : Type} (le : α → α → Bool) (l : List α) :
    (sortBy le l).Perm l := by
  induction l with
  | nil => exact List.Perm.refl _
  | cons a l ih =>
    exact List.Perm.trans (insertSorted_perm le a (sortBy le l))
      (List.Perm.cons a ih)

lemma pairwise_insertSorted {α : Type} (le : α → α → Bool)
    (htotal : ∀ x y, (le x y || le y x) = true)
    (htrans : ∀ x y z, le x y = true → le y z = true → le x z = true)
    (a : α) (l : List α) (hl : l.Pairwise fun x y => le x y = true) :
    (insertSorted le a l).Pairwise fun x y => le x y = true := by
  induction l with
  | nil => simp [insertSorted]
  | cons b l ih =>
    rw [List.pairwise_cons] at hl
    obtain ⟨hb, hl2⟩ := hl
    by_cases h : le a b = true
    · simp only [insertSorted, h, if_true]
      rw [List.pairwise_cons]
      constructor
      · intro x hx
        rcases List.mem_cons.mp hx with hx | hx
        · rw [hx]; exact h
        · exact htrans a b x h (hb x hx)
      · rw [List.pairwise_cons]
        exact ⟨hb, hl2⟩
    · have hba : le b a = true := by
        have := htotal a b
        simp [h] at this
        exact this
      simp only [insertSorted, h, if_false, Bool.false_eq_true]
      rw [List.pairwise_cons]
      constructor
      · intro x hx
        have hx2 := (insertSorted_perm le a l).mem_iff.mp hx
        rcases List.mem_cons.mp hx2 with hx2 | hx2
        · rw [hx2]; exact hba
        · exact hb x hx2
      · exact ih hl2

lemma pairwise_sortBy {α : Type} (le : α → α → Bool)
    (htotal : ∀ x y, (le x y || le y x) = true)
    (htrans : ∀ x y z, le x y = true → le y z = true → le x z = true)
    (l : List α) :
    (sortBy le l).Pairwise fun x y => le x y = true := by
  induction l with
  | nil => simp [sortBy]
  | cons a l ih => exact pairwise_insertSorted le htotal htrans a _ ih

lemma charListLe_total (as bs : List Char) :
    (charListLe as bs || charListLe bs as) = true := by
  induction as generalizing bs with
  | nil => simp [charListLe]
  | cons a as ih =>
    cases bs with
    | nil => simp [charListLe]
    | cons b bs =>
      by_cases hab : a < b
      · simp [charListLe, hab]
      · by_cases hba : b < a
        · simp [charListLe, hab, hba]
        · have hab2 : a = b :=
            le_antisymm (not_lt.mp hba) (not_lt.mp hab)
          subst hab2
          simp [charListLe, lt_irrefl, ih bs]

lemma charListLe_trans (as bs cs : List Char)
    (h1 : charListLe as bs = true) (h2 : charListLe bs cs = true) :
    charListLe as cs = true := by
  induction as generalizing bs cs with
  | nil => simp [charListLe]
  | cons a as ih =>
    cases bs with
    | nil => simp [charListLe] at h1
    | cons b bs =>
      cases cs with
      | nil => simp [charListLe] at h2
      | cons c cs =>
        by_cases hab : a < b
        · by_cases hbc : b < c
          · simp [charListLe, lt_trans hab hbc]
          · by_cases hcb : c < b
            · simp [charListLe, hbc, hcb] at h2
            · have hbc2 : b = c :=
                le_antisymm (not_lt.mp hcb) (not_lt.mp hbc)
              subst hbc2
              simp [charListLe, hab]
        · by_cases hba : b < a
          · simp [charListLe, hab, hba] at h1
          · have hab2 : a = b :=
              le_antisymm (not_lt.mp hba) (not_lt.mp hab)
            subst hab2
            simp only [charListLe, lt_irrefl, if_false] at h1
            by_cases hac : a < c
            · simp [charListLe, hac]
            · by_cases hca : c < a
              · simp [charListLe, hac, hca] at h2
              · simp only [charListLe, lt_irrefl, hac, hca,
                  if_false] at h2 ⊢
                exact ih bs cs h1 h2

lemma pairLe_total (p q : String × RespFrame) :
    (pairLe p q || pairLe q p) = true :=
  charListLe_total p.1.data q.1.data

lemma pairLe_trans (p q r : String × RespFrame)
    (h1 : pairLe p q = true) (h2 : pairLe q r = true) :
    pairLe p r = true :=
  charListLe_trans p.1.data q.1.data r.1.data h1 h2

/-- C4: HGETALL on an absent key replies with the empty Array (not Null)
for either sort flag; on a present key with the sort flag set, the reply
flattens a list of the (field, value) pairs of the entry that is a
permutation of the stored entry and is sorted by ascending lexicographic
comparison of field names. -/
theorem hgetall_reply (b : Backend) (k : String) (s : Bool) :
    (lookupEntry b.hmap k = none →
      (HGetAll.execute ⟨k, s⟩ b).2 = RespFrame.Array []) ∧
    (∀ m, lookupEntry b.hmap k = some m →
      ∃ l : List (String × RespFrame),
        (HGetAll.execute ⟨k, true⟩ b).2 = RespFrame.Array
          (l.flatMap fun p => [RespFrame.BulkString p.1, p.2]) ∧
        l.Perm m ∧
        l.Pairwise fun p q => strLe p.1 q.1 = true) := by
  constructor
  · intro h
    simp [HGetAll.execute, h]
  · intro m h
    refine ⟨sortBy pairLe m, ?_, sortBy_perm pairLe m, ?_⟩
    · simp [HGetAll.execute, h]
    · exact pairwise_sortBy pairLe pairLe_total pairLe_trans m

theorem hgetall_reply_witness :
    (HGetAll.execute ⟨"nokey", true⟩ Backend.new).2 = RespFrame.Array [] ∧
    (∃ l : List (String × RespFrame),
      (HGetAll.execute ⟨"map", true⟩ demoHash).2 = RespFrame.Array
        (l.flatMap fun p => [RespFrame.BulkString p.1, p.2]) ∧
      l.Perm [("hello", RespFrame.BulkString "world"),
        ("alpha", RespFrame.BulkString "beta")] ∧
      l.Pairwise fun p q => strLe p.1 q.1 = true) :=
  ⟨(hgetall_reply Backend.new "nokey" true).1 rfl,
   (hgetall_reply demoHash "map" true).2 _ rfl⟩

lemma sismember_eq_hget_isSome (b : Backend) (k m : String) :
    b.sismember k m = (b.hget k m).isSome := by
  cases h : lookupEntry b.hmap k <;>
    simp [Backend.sismember, Backend.hget, h]

lemma hget_isSome_hset (b : Backend) (k1 f1 : String) (v : RespFrame)
    (k m : String) (h : (b.hget k m).isSome = true) :
    ((b.hset k1 f1 v).hget k m).isSome = true := by
  by_cases hk : k1 = k
  · subst hk
    cases hb : lookupEntry b.hmap k1 with
    | none => rw [Backend.hget, hb] at h; simp at h
    | some mm =>
      rw [Backend.hget, hb] at h
      simp at h
      rw [Backend.hget]
      simp [Backend.hset, lookupEntry_setEntry, hb]
      by_cases hf : f1 = m <;> simp [hf, h]
  · rw [Backend.hget] at h ⊢
    simp only [Backend.hset, lookupEntry_setEntry, hk, if_false]
    exact h

lemma hget_isSome_sadd (b : Backend) (k1 : String) (mems : List String)
    (k m : String) (h : (b.hget k m).isSome = true) :
    (((b.sadd k1 mems).1).hget k m).isSome = true := by
  by_cases hk : k1 = k
  · subst hk
    cases hb : lookupEntry b.hmap k1 with
    | none => rw [Backend.hget, hb] at h; simp at h
    | some mm =>
      rw [Backend.hget, hb] at h
      simp at h
      rw [Backend.hget]
      simp [Backend.sadd, lookupEntry_setEntry, hb, saddLoop_fst]
      by_cases hmem : m ∈ mems <;> simp [hmem, h]
  · rw [Backend.hget] at h ⊢
    simp only [Backend.sadd, lookupEntry_setEntry, hk, if_false]
    exact h

/-- C7: the SISMEMBER executor replies Integer 1 exactly when the member
exists as a field under the composite entry for the key and Integer 0
otherwise, and executing any supported command preserves membership: no
removal path exists. -/
theorem sismember_reply (b : Backend) (k m : String) :
    ((SIsMember.execute ⟨k, m⟩ b).2 = RespFrame.Integer 1 ↔
      (b.hget k m).isSome = true) ∧
    ((SIsMember.execute ⟨k, m⟩ b).2 = RespFrame.Integer 0 ↔
      (b.hget k m).isSome = false) ∧
    (∀ c : Command, (b.hget k m).isSome = true →
      (((c.execute b).1).hget k m).isSome = true) := by
  refine ⟨?_, ?_, ?_⟩
  · rw [SIsMember.execute]
    simp only [sismember_eq_hget_isSome]
    cases hh : (b.hget k m).isSome <;> simp [hh]
  · rw [SIsMember.execute]
    simp only [sismember_eq_hget_isSome]
    cases hh : (b.hget k m).isSome <;> simp [hh]
  · intro c h
    cases c with
    | get key =>
      cases hg : Backend.get b key <;>
        simp [Command.execute, GetCmd.execute, hg] <;> exact h
    | set key v =>
      simp only [Command.execute, SetCmd.execute]
      rw [Backend.hget] at h ⊢
      exact h
    | hget c =>
      cases hg : b.hget c.key c.field <;>
        simp [Command.execute, HGet.execute, hg] <;> exact h
    | hgetall c =>
      cases hg : lookupEntry b.hmap c.key <;>
        simp [Command.execute, HGetAll.execute, hg] <;> exact h
    | hmget c =>
      cases hg : lookupEntry b.hmap c.key <;>
        simp [Command.execute, HMGet.execute, hg] <;> exact h
    | hset c => exact hget_isSome_hset b c.key c.field c.value k m h
    | sadd c => exact hget_isSome_sadd b c.key c.members k m h
    | sismember c =>
      simp only [Command.execute, SIsMember.execute]
      exact h

theorem sismember_reply_witness :
    ((SIsMember.execute ⟨"s", "a"⟩ demoSet).2 = RespFrame.Integer 1) ∧
    ((SIsMember.execute ⟨"s", "z"⟩ demoSet).2 = RespFrame.Integer 0) ∧
    ((((Command.hset ⟨"s", "x", RESP_OK⟩).execute demoSet).1).hget
      "s" "a").isSome = true :=
  ⟨(sismember_reply demoSet "s" "a").1.mpr rfl,
   (sismember_reply demoSet "s" "z").2.1.mpr rfl,
   (sismember_reply demoSet "s" "a").2.2
     (Command.hset ⟨"s", "x", RESP_OK⟩) rfl⟩

lemma decodeBulkList_ok_length (msg : String) :
    ∀ (l : List RespFrame) (ss : List String),
    decodeBulkList msg l = Except.ok ss → ss.length = l.length := by
  intro l
  induction l with
  | nil =>
    intro ss h
    simp [decodeBulkList] at h
    rw [h]
    rfl
  | cons f rest ih =>
    intro ss h
    cases f with
    | BulkString s =>
      rw [decodeBulkList] at h
      cases hr : decodeBulkList msg rest with
      | ok ss2 =>
        rw [hr] at h
        simp at h
        rw [← h]
        simp [ih ss2 hr]
      | error e => rw [hr] at h; exact Except.noConfusion h
    | Null => exact Except.noConfusion h
    | Integer i => exact Except.noConfusion h
    | SimpleString s => exact Except.noConfusion h
    | ErrorFrame s => exact Except.noConfusion h
    | Array xs => exact Except.noConfusion h

/-- C8: parsing HGET from an array carrying only the name and a key fails
with InvalidArgument; parsing HSET with a non-BulkString frame in the key
position fails with InvalidArgument, while any frame type is accepted in
the value position. -/
theorem hget_hset_parse_errors (k f : String) (w v : RespFrame)
    (hw : w.isBulkString = false) :
    (∃ msg, HGet.tryFrom [RespFrame.BulkString "hget",
        RespFrame.BulkString k] =
      Except.error (CommandError.InvalidArgument msg)) ∧
    (∃ msg, HSet.tryFrom [RespFrame.BulkString "hset", w,
        RespFrame.BulkString f, v] =
      Except.error (CommandError.InvalidArgument msg)) ∧
    HSet.tryFrom [RespFrame.BulkString "hset", RespFrame.BulkString k,
      RespFrame.BulkString f, v] = Except.ok ⟨k, f, v⟩ := by
  refine ⟨⟨"wrong number of arguments", ?_⟩,
    ⟨"Invalid key, field or value", ?_⟩, ?_⟩
  · rfl
  · cases w with
    | BulkString s => simp [RespFrame.isBulkString] at hw
    | Null => rfl
    | Integer i => rfl
    | SimpleString s => rfl
    | ErrorFrame s => rfl
    | Array xs => rfl
  · rfl

theorem hget_hset_parse_errors_witness :
    (∃ msg, HGet.tryFrom [RespFrame.BulkString "hget",
        RespFrame.BulkString "map"] =
      Except.error (CommandError.InvalidArgument msg)) ∧
    (∃ msg, HSet.tryFrom [RespFrame.BulkString "hset", RespFrame.Null,
        RespFrame.BulkString "hello", RespFrame.Integer 7] =
      Except.error (CommandError.InvalidArgument msg)) ∧
    HSet.tryFrom [RespFrame.BulkString "hset",
      RespFrame.BulkString "map", RespFrame.BulkString "hello",
      RespFrame.Integer 7] = Except.ok ⟨"map", "hello", RespFrame.Integer 7⟩ :=
  hget_hset_parse_errors "map" "hello" RespFrame.Null
    (RespFrame.Integer 7) rfl

/-- C9: parsing HMGET or SAdd from an array holding only the name and a
key fails with InvalidArgument (the zero-field and zero-member forms are
rejected), and every successful parse carries at least one field or
member. -/
theorem hmget_sadd_parse_arity (k : String) (l1 l2 : List RespFrame)
    (c : HMGet) (c2 : SAdd) :
    (∃ msg, HMGet.tryFrom [RespFrame.BulkString "hmget",
        RespFrame.BulkString k] =
      Except.error (CommandError.InvalidArgument msg)) ∧
    (∃ msg, SAdd.tryFrom [RespFrame.BulkString "sadd",
        RespFrame.BulkString k] =
      Except.error (CommandError.InvalidArgument msg)) ∧
    (HMGet.tryFrom l1 = Except.ok c → c.fields ≠ []) ∧
    (SAdd.tryFrom l2 = Except.ok c2 → c2.members ≠ []) := by
  refine ⟨⟨"command hmget must have at least 2 arguments", rfl⟩,
    ⟨"command sadd must have at least 2 arguments", rfl⟩, ?_, ?_⟩
  · intro h
    unfold HMGet.tryFrom at h
    by_cases hlen : (extract_args l1 0).length < 3
    · rw [if_pos hlen] at h
      exact Except.noConfusion h
    · rw [if_neg hlen] at h
      cases hname : ((extract_args l1 0).headD RespFrame.Null).isBulkOf
          "hmget" with
      | false => rw [hname] at h; simp at h
      | true =>
        rw [hname] at h
        simp only [Bool.not_true, Bool.false_eq_true, if_false] at h
        cases hd : (extract_args l1 0).drop 1 with
        | nil => rw [hd] at h; exact Except.noConfusion h
        | cons fr rest =>
          rw [hd] at h
          cases fr with
          | BulkString key =>
            cases hb : decodeBulkList "Invalid field" rest with
            | ok fields =>
              simp only [hb] at h
              injection h with h2
              have hcf : c.fields = fields := by rw [← h2]
              rw [hcf]
              have hlf : fields.length = rest.length :=
                decodeBulkList_ok_length _ rest fields hb
              have hlen2 : 3 ≤ (extract_args l1 0).length :=
                not_lt.mp hlen
              have hld : ((extract_args l1 0).drop 1).length =
                  (extract_args l1 0).length - 1 :=
                List.length_drop 1 _
              rw [hd] at hld
              simp only [List.length_cons] at hld
              intro hnil
              rw [hnil] at hlf
              simp at hlf
              omega
            | error e =>
              simp only [hb] at h
              exact Except.noConfusion h
          | Null => exact Except.noConfusion h
          | Integer i => exact Except.noConfusion h
          | SimpleString s => exact Except.noConfusion h
          | ErrorFrame s => exact Except.noConfusion h
          | Array xs => exact Except.noConfusion h
  · intro h
    unfold SAdd.tryFrom at h
    by_cases hlen : (extract_args l2 0).length < 3
    · rw [if_pos hlen] at h
      exact Except.noConfusion h
    · rw [if_neg hlen] at h
      cases hname : ((extract_args l2 0).headD RespFrame.Null).isBulkOf
          "sadd" with
      | false => rw [hname] at h; simp at h
      | true =>
        rw [hname] at h
        simp only [Bool.not_true, Bool.false_eq_true, if_false] at h
        cases hd : (extract_args l2 0).drop 1 with
        | nil => rw [hd] at h; exact Except.noConfusion h
        | cons fr rest =>
          rw [hd] at h
          cases fr with
          | BulkString key =>
            cases hb : decodeBulkList "Invalid member" rest with
            | ok members =>
              simp only [hb] at h
              injection h with h2
              have hcf : c2.members = members := by rw [← h2]
              rw [hcf]
              have hlf : members.length = rest.length :=
                decodeBulkList_ok_length _ rest members hb
              have hlen2 : 3 ≤ (extract_args l2 0).length :=
                not_lt.mp hlen
              have hld : ((extract_args l2 0).drop 1).length =
                  (extract_args l2 0).length - 1 :=
                List.length_drop 1 _
              rw [hd] at hld
              simp only [List.length_cons] at hld
              intro hnil
              rw [hnil] at hlf
              simp at hlf
              omega
            | error e =>
              simp only [hb] at h
              exact Except.noConfusion h
          | Null => exact Except.noConfusion h
          | Integer i => exact Except.noConfusion h
          | SimpleString s => exact Except.noConfusion h
          | ErrorFrame s => exact Except.noConfusion h
          | Array xs => exact Except.noConfusion h

theorem hmget_sadd_parse_arity_witness :
    (∃ msg, HMGet.tryFrom [RespFrame.BulkString "hmget",
        RespFrame.BulkString "map"] =
      Except.error (CommandError.InvalidArgument msg)) ∧
    (∃ msg, SAdd.tryFrom [RespFrame.BulkString "sadd",
        RespFrame.BulkString "map"] =
      Except.error (CommandError.InvalidArgument msg)) ∧
    (⟨"map", ["f1"]⟩ : HMGet).fields ≠ [] ∧
    (⟨"s", ["a"]⟩ : SAdd).members ≠ [] :=
  ⟨(hmget_sadd_parse_arity "map"
      [RespFrame.BulkString "hmget", RespFrame.BulkString "map",
        RespFrame.BulkString "f1"]
      [RespFrame.BulkString "sadd", RespFrame.BulkString "s",
        RespFrame.BulkString "a"]
      ⟨"map", ["f1"]⟩ ⟨"s", ["a"]⟩).1,
   (hmget_sadd_parse_arity "map"
      [RespFrame.BulkString "hmget", RespFrame.BulkString "map",
        RespFrame.BulkString "f1"]
      [RespFrame.BulkString "sadd", RespFrame.BulkString "s",
        RespFrame.BulkString "a"]
      ⟨"map", ["f1"]⟩ ⟨"s", ["a"]⟩).2.1,
   (hmget_sadd_parse_arity "map"
      [RespFrame.BulkString "hmget", RespFrame.BulkString "map",
        RespFrame.BulkString "f1"]
      [RespFrame.BulkString "sadd", RespFrame.BulkString "s",
        RespFrame.BulkString "a"]
      ⟨"map", ["f1"]⟩ ⟨"s", ["a"]⟩).2.2.1 rfl,
   (hmget_sadd_parse_arity "map"
      [RespFrame.BulkString "hmget", RespFrame.BulkString "map",
        RespFrame.BulkString "f1"]
      [RespFrame.BulkString "sadd", RespFrame.BulkString "s",
        RespFrame.BulkString "a"]
      ⟨"map", ["f1"]⟩ ⟨"s", ["a"]⟩).2.2.2 rfl⟩

/-- C10: every array that successfully parses as HGetAll yields a command
whose sort flag is false; the flag is never derived from the request. -/
theorem hgetall_parse_sort_false (l : List RespFrame) (c : HGetAll)
    (h : HGetAll.tryFrom l = Except.ok c) : c.sort = false := by
  unfold HGetAll.tryFrom at h
  cases hv : validate_command l ["hgetall"] 1 with
  | error e => rw [hv] at h; exact Except.noConfusion h
  | ok u =>
    rw [hv] at h
    cases hm : extract_args l 1 with
    | nil => rw [hm] at h; exact Except.noConfusion h
    | cons fr rest =>
      rw [hm] at h
      cases fr with
      | BulkString key =>
        injection h with h2
        rw [← h2]
      | Null => exact Except.noConfusion h
      | Integer i => exact Except.noConfusion h
      | SimpleString s => exact Except.noConfusion h
      | ErrorFrame s => exact Except.noConfusion h
      | Array xs => exact Except.noConfusion h

theorem hgetall_parse_sort_false_witness :
    (⟨"map", false⟩ : HGetAll).sort = false :=
  hgetall_parse_sort_false
    [RespFrame.BulkString "hgetall", RespFrame.BulkString "map"]
    ⟨"map", false⟩ rfl
